import Mathlib

/-!
Verification of the transcript-normalization core of The-Office-Simulator.

The embedding models the Python source over `List Char` (one list per
line of text).  Python string primitives (`strip`, `split`, `title`,
`isupper`, `zfill`, `str.replace`, regular expressions used by the
source) are given executable Lean definitions restricted to ASCII, which
is the alphabet the transcripts and the configuration tables use.
-/

namespace OfficeSim

/-- The characters Python's `str.strip()` / `str.split()` treat as
whitespace, restricted to ASCII. -/
def isPyWs (c : Char) : Bool :=
  c = ' ' || c = '\t' || c = '\n' || c = '\x0d' || c = '\x0b' || c = '\x0c'

/-- ASCII decimal digit, the `\d` class of the source's regexes. -/
def isDigitC (c : Char) : Bool := 48 ≤ c.toNat && c.toNat ≤ 57

/-- ASCII upper-case letter, the `[A-Z]` class. -/
def isAsciiUpper (c : Char) : Bool := 65 ≤ c.toNat && c.toNat ≤ 90

/-- ASCII lower-case letter. -/
def isAsciiLower (c : Char) : Bool := 97 ≤ c.toNat && c.toNat ≤ 122

/-- ASCII letter, the `[a-zA-Z]` class and (restricted to ASCII) Python's
notion of a cased character. -/
def isAsciiAlpha (c : Char) : Bool := isAsciiUpper c || isAsciiLower c

/-- ASCII upper-casing of one character (Python `str.upper` on ASCII). -/
def upC (c : Char) : Char :=
  if isAsciiLower c then Char.ofNat (c.toNat - 32) else c

/-- ASCII lower-casing of one character (Python `str.lower` on ASCII). -/
def lowC (c : Char) : Char :=
  if isAsciiUpper c then Char.ofNat (c.toNat + 32) else c

/-- `str.strip()` from the left. -/
def stripL (l : List Char) : List Char := l.dropWhile isPyWs

/-- `str.strip()` from the right. -/
def stripR (l : List Char) : List Char := (l.reverse.dropWhile isPyWs).reverse

/-- Python `str.strip()` (no arguments): drop whitespace at both ends. -/
def pyStrip (l : List Char) : List Char := stripR (stripL l)

/-- Coerce a Lean string literal to the `List Char` the model works on. -/
def chars (s : String) : List Char := s.data

/-! ### Python string operations used by `TranscriptToRagProcessor.py` -/

/-- Helper for `str.split()`: `acc` is the current word, reversed. -/
def pySplitAux : List Char → List Char → List (List Char)
  | acc, [] => if acc.isEmpty then [] else [acc.reverse]
  | acc, c :: rest =>
    if isPyWs c then
      if acc.isEmpty then pySplitAux [] rest else acc.reverse :: pySplitAux [] rest
    else pySplitAux (c :: acc) rest

/-- Python `str.split()` with no arguments: the maximal whitespace-free words. -/
def pySplitWs (l : List Char) : List (List Char) := pySplitAux [] l

/-- `' '.join(ws)`. -/
def joinWords : List (List Char) → List Char
  | [] => []
  | [w] => w
  | w :: ws => w ++ ' ' :: joinWords ws

/-- `' '.join(s.split())` — the whitespace collapsing step of
`normalize_character_name`. -/
def squish (l : List Char) : List Char := joinWords (pySplitWs l)

/-- One character of Python `str.title()`: `b` records whether the previous
character was cased (a letter, in ASCII). -/
def titleChar (b : Bool) (c : Char) : Char :=
  if isAsciiAlpha c then (if b then lowC c else upC c) else c

def titleAux (b : Bool) : List Char → List Char
  | [] => []
  | c :: rest => titleChar b c :: titleAux (isAsciiAlpha c) rest

/-- Python `str.title()` (ASCII): the first letter of every maximal letter run
is upper-cased, the rest lower-cased. -/
def pyTitle (l : List Char) : List Char := titleAux false l

/-- Python `str.isupper()` (ASCII): at least one letter, and no lower-case
letter. -/
def pyIsUpper (l : List Char) : Bool :=
  l.any isAsciiAlpha && l.all (fun c => !isAsciiLower c)

/-- `str.strip('[]')`: drop `[` and `]` characters from both ends. -/
def isBrk (c : Char) : Bool := c = '[' || c = ']'

def stripBrk (l : List Char) : List Char :=
  ((l.dropWhile isBrk).reverse.dropWhile isBrk).reverse

/-- Split a list at the first occurrence of `t` (the occurrence removed). -/
def splitAtFirst (t : Char) : List Char → Option (List Char × List Char)
  | [] => none
  | c :: rest =>
    if c = t then some ([], rest)
    else
      match splitAtFirst t rest with
      | some (a, b) => some (c :: a, b)
      | none => none

/-- The character class `[a-zA-Z\s\'\.\-]` of the source's character-line
regexes. -/
def charClassChar (c : Char) : Bool :=
  isAsciiAlpha c || isPyWs c || c = '\'' || c = '.' || c = '-'

/-- The character-line pattern of `parse_transcript`:
`re.match(r'^([A-Z][a-zA-Z\s\'\.\-]+?)\s*:\s*(.*)$', line)` (the loop's
continuation-terminator regex `r'^[A-Z][a-zA-Z\s\'\.\-]+?\s*:'` matches
exactly the same lines).  A match needs a first character in `[A-Z]`, a first
colon no earlier than the third character, and only class characters before
that colon.  Lazy matching plus `\s*` make `group(1).strip()` equal to the
stripped text before the first colon; `group(2).strip()` equals the stripped
text after it (so the colon's trailing `\s*` is folded into the caller's
`.strip()`, which the source always applies). -/
def charLineMatch : List Char → Option (List Char × List Char)
  | [] => none
  | c :: rest =>
    if isAsciiUpper c then
      match splitAtFirst ':' rest with
      | some (before, after) =>
        if !before.isEmpty && before.all charClassChar then
          some (pyStrip (c :: before), after)
        else none
      | none => none
    else none

/-- The scene-marker test of `parse_transcript` (applied to the stripped
line): `line.startswith('[') or (line.isupper() and len(line) < 100 and ':'
not in line)`. -/
def isSceneMarker (s : List Char) : Bool :=
  s.head? = some '[' || (pyIsUpper s && decide (s.length < 100) && !(s.contains ':'))

/-- `re.sub(r'\([^)]*\)', '', text)`: repeatedly delete the leftmost
`( ... )` span containing no `)`; a `(` with no later `)` is left alone
(fuelled by the input length; every recursive call strictly shrinks the
list, so the fuel is never exhausted). -/
def removeParensF : Nat → List Char → List Char
  | 0, l => l
  | _+1, [] => []
  | fuel+1, c :: rest =>
    if c = '(' then
      match splitAtFirst ')' rest with
      | some (_, after) => removeParensF fuel after
      | none => c :: rest
    else c :: removeParensF fuel rest

def removeParens (l : List Char) : List Char := removeParensF l.length l

/-! ### The dialogue data model and the assembler of `parse_transcript` -/

/-- The character-name alias table `self.character_mappings`. -/
def character_mappings : List (List Char × List Char) :=
  [(chars "Micheal", chars "Michael"),
   (chars "Diwght", chars "Dwight"),
   (chars "Michel", chars "Michael"),
   (chars "Dwigh", chars "Dwight"),
   (chars "Pam Beesly", chars "Pam"),
   (chars "Pam Halpert", chars "Pam"),
   (chars "Jim Halpert", chars "Jim"),
   (chars "Dwight Schrute", chars "Dwight"),
   (chars "Dwight K. Schrute", chars "Dwight"),
   (chars "Michael Scott", chars "Michael"),
   (chars "Michael Gary Scott", chars "Michael"),
   (chars "Angela Martin", chars "Angela"),
   (chars "Oscar Martinez", chars "Oscar"),
   (chars "Kevin Malone", chars "Kevin"),
   (chars "Stanley Hudson", chars "Stanley"),
   (chars "Phyllis Vance", chars "Phyllis"),
   (chars "Ryan Howard", chars "Ryan"),
   (chars "Kelly Kapoor", chars "Kelly"),
   (chars "Toby Flenderson", chars "Toby"),
   (chars "Creed Bratton", chars "Creed"),
   (chars "Meredith Palmer", chars "Meredith"),
   (chars "Erin Hannon", chars "Erin"),
   (chars "Andy Bernard", chars "Andy"),
   (chars "Darryl Philbin", chars "Darryl"),
   (chars "Holly Flax", chars "Holly"),
   (chars "Holly", chars "Holly")]

/-- `dict.get(key)` on an association list. -/
def lookupMap : List (List Char × List Char) → List Char → Option (List Char)
  | [], _ => none
  | (k, v) :: rest, key => if k = key then some v else lookupMap rest key

/-- `normalize_character_name`: collapse whitespace, title-case, then apply
the alias table (`self.character_mappings.get(name, name)`). -/
def normalize_character_name (name : List Char) : List Char :=
  let t := pyTitle (squish name)
  (lookupMap character_mappings t).getD t

/-- One structured dialogue entry (the `Dialogue` dataclass). -/
structure Dialogue where
  character : List Char
  text : List Char
  episode_code : List Char
  season : Nat
  episode_number : Nat
  episode_title : List Char
  line_number : Nat
  scene_context : List Char
deriving DecidableEq, Repr

/-- The episode metadata `parse_transcript` receives (`episode_info`). -/
structure EpInfo where
  episode_code : List Char
  season : Nat
  episode_number : Nat
  episode_title : List Char
deriving DecidableEq, Repr

/-- The placeholder-dash list of `parse_transcript`:
`['---', '----', '-----', '------', '-------']`. -/
def dashes : List (List Char) :=
  [chars "---", chars "----", chars "-----", chars "------", chars "-------"]

/-- The emission test of `parse_transcript`'s flush:
`if dialogue_text and dialogue_text not in ['---', ..., '-------']`. -/
def emitOK (t : List Char) : Bool := !t.isEmpty && !(dashes.contains t)

/-- The inner continuation-collecting loop of `parse_transcript` (the
`while` entered when the dialogue is not on the character's own line).
Returns the collected (stripped) parts and the lines still to process:
a blank line ends collection and is consumed; a line matching the
character-line regex, or starting with `[`, ends collection and is pushed
back (the source's `i -= 1`); anything else is appended stripped. -/
def collectCont : List (List Char) → List (List Char) × List (List Char)
  | [] => ([], [])
  | l :: rest =>
    let s := pyStrip l
    if s.isEmpty then ([], rest)
    else if (charLineMatch s).isSome then ([], l :: rest)
    else if s.head? = some '[' then ([], l :: rest)
    else
      let p := collectCont rest
      (s :: p.1, p.2)

/-- The dialogue-text computation of `parse_transcript` after a
character-line match: gather the parts (`[dialogue_start]` when the
dialogue begins on the same line, the inner loop's harvest otherwise),
join them with spaces and strip, optionally delete parenthesised stage
directions, and report the remaining input lines. -/
def flushInfo (keep : Bool) (rawRem : List Char) (rest : List (List Char)) :
    List Char × List (List Char) :=
  let ds := pyStrip rawRem
  let pr := if ds.isEmpty then collectCont rest else ([ds], rest)
  let t0 := pyStrip (joinWords pr.1)
  let t := if keep then t0 else pyStrip (removeParens t0)
  (t, pr.2)

/-- The Dialogue record `parse_transcript` constructs when the flush
emits. -/
def mkDialogue (info : EpInfo) (character t scene : List Char) (n : Nat) : Dialogue :=
  { character := character, text := t, episode_code := info.episode_code,
    season := info.season, episode_number := info.episode_number,
    episode_title := info.episode_title, line_number := n,
    scene_context := scene }

/-- The main `while` loop of `parse_transcript`, fuelled by the number of
remaining lines (each step consumes at least one line, and the inner loop
never pushes back more than one, so `fuel = lines.length` always suffices;
the fuel-0 branch is unreachable from `parseFrom`).  `scene` is
`current_scene`, `n` is `line_number`. -/
def parseLoopF (keep : Bool) (info : EpInfo) :
    Nat → List Char → Nat → List (List Char) → List Dialogue
  | 0, _, _, _ => []
  | _+1, _, _, [] => []
  | fuel+1, scene, n, l :: rest =>
    let s := pyStrip l
    if s.isEmpty then parseLoopF keep info fuel scene n rest
    else if isSceneMarker s then parseLoopF keep info fuel (stripBrk s) n rest
    else
      match charLineMatch s with
      | none => parseLoopF keep info fuel scene n rest
      | some (rawName, rawRem) =>
        let ft := flushInfo keep rawRem rest
        if emitOK ft.1 then
          mkDialogue info (normalize_character_name rawName) ft.1 scene (n + 1) ::
            parseLoopF keep info fuel scene (n + 1) ft.2
        else parseLoopF keep info fuel scene n ft.2

/-- `parse_transcript`'s loop started at an arbitrary assembler state. -/
def parseFrom (keep : Bool) (info : EpInfo) (scene : List Char) (n : Nat)
    (lines : List (List Char)) : List Dialogue :=
  parseLoopF keep info lines.length scene n lines

/-- `parse_transcript`'s loop from the initial state
(`current_scene = "Opening"`, `line_number = 0`). -/
def parseLines (keep : Bool) (info : EpInfo) (lines : List (List Char)) : List Dialogue :=
  parseFrom keep info (chars "Opening") 0 lines

/-- `content.split('\n')` (Python `str.split` with an explicit separator:
the empty string splits to `[""]`, a trailing separator produces a final
empty piece). -/
def splitNl : List Char → List (List Char)
  | [] => [[]]
  | c :: rest =>
    if c = '\n' then [] :: splitNl rest
    else
      match splitNl rest with
      | [] => [[c]]
      | h :: t => (c :: h) :: t

/-- The whole of `parse_transcript`: `none` models an unreadable file (the
`try/except` around `open`/`read` returns `[]`); `some content` is the
decoded file text, split into lines and fed to the assembler loop. -/
def parse_transcript (keep : Bool) (info : EpInfo) :
    Option (List Char) → List Dialogue
  | none => []
  | some content => parseLines keep info (splitNl content)

/-! ### C9: a non-blank, non-marker, non-character line is a no-op -/

/-! ### C10: an unreadable unit yields no records -/

/-! ### C2: the discard rule at a flush -/

/-- A concrete episode context used by the concrete-input theorems. -/
def info0 : EpInfo := ⟨chars "01x01", 1, 1, chars "Pilot"⟩

/-- The claim of C2 as stated: at a flush, a resulting text consisting
solely of hyphen characters — a run of any length (the empty text
included) — is never emitted. -/
def claimC2 : Prop :=
  ∀ t : List Char, t.all (fun c => c = '-') = true → emitOK t = false

/-! ### C3: episode-title resolution (`process_all_transcripts`) -/

/-- Decimal digits of a natural number, most significant first (fuelled;
`natChars` always supplies enough fuel). -/
def natCharsAux : Nat → Nat → List Char
  | 0, _ => []
  | fuel + 1, n =>
    if n < 10 then [Char.ofNat (48 + n)]
    else natCharsAux fuel (n / 10) ++ [Char.ofNat (48 + n % 10)]

/-- `str(n)` for a natural number. -/
def natChars (n : Nat) : List Char := natCharsAux (n + 1) n

/-- `season in episode_titles` plus `episode_titles[season]` on the
season→titles table (a Python dict modelled as an association list). -/
def lookupSeason : List (Nat × List (List Char)) → Nat → Option (List (List Char))
  | [], _ => none
  | (k, v) :: rest, key => if k = key then some v else lookupSeason rest key

/-- The episode-title resolution of `process_all_transcripts` (source lines
304–319).  `none` models `episode_titles=None`; by Python truthiness an
empty dict takes the same branch.  `tff` is `title_from_filename` (the
empty list models the falsy empty string).  The model uses natural-number
indexing, faithful to the source for `epNum ≥ 1` (for `epNum = 0` the
source would index the list with Python's negative `-1`). -/
def resolveEpisodeTitle (table : Option (List (Nat × List (List Char))))
    (season epNum : Nat) (tff : List Char) : List Char :=
  match table with
  | some tbl =>
    if tbl.isEmpty then
      if !tff.isEmpty then tff
      else chars "S" ++ natChars season ++ chars "E" ++ natChars epNum
    else
      let hit := lookupSeason tbl season
      if hit.isSome && decide (epNum - 1 < (hit.getD []).length) then
        (hit.getD []).getD (epNum - 1) []
      else if !tff.isEmpty then tff
      else chars "Episode " ++ natChars epNum
  | none =>
    if !tff.isEmpty then tff
    else chars "S" ++ natChars season ++ chars "E" ++ natChars epNum

/-- The resolution order C3 claims: (1) the inline/filename-captured title
when non-empty, (2) otherwise the table lookup at `episode_number - 1`,
(3) otherwise the placeholder `"Episode {n}"`. -/
def claimTitleResolve (table : Option (List (Nat × List (List Char))))
    (season epNum : Nat) (tff : List Char) : List Char :=
  if !tff.isEmpty then tff
  else
    match table with
    | some tbl =>
      match lookupSeason tbl season with
      | some titles =>
        if epNum - 1 < titles.length then titles.getD (epNum - 1) []
        else chars "Episode " ++ natChars epNum
      | none => chars "Episode " ++ natChars epNum
    | none => chars "Episode " ++ natChars epNum

/-- The claim of C3 as stated: the source's resolution follows the
filename-first priority for every unit. -/
def claimC3 : Prop :=
  ∀ (table : Option (List (Nat × List (List Char)))) (season epNum : Nat)
    (tff : List Char),
    resolveEpisodeTitle table season epNum tff = claimTitleResolve table season epNum tff

/-- The resolution order the source actually implements: with a (truthy)
table, (1) the table entry at `episode_number - 1` when the season is
present and the index in range, (2) otherwise the filename-captured title
when non-empty, (3) otherwise `"Episode {n}"`; with no (or an empty)
table, (1) the filename-captured title when non-empty, (2) otherwise the
placeholder `"S{season}E{n}"`. -/
def amendedTitleResolve (table : Option (List (Nat × List (List Char))))
    (season epNum : Nat) (tff : List Char) : List Char :=
  match table with
  | some tbl =>
    if tbl.isEmpty then
      if !tff.isEmpty then tff
      else chars "S" ++ natChars season ++ chars "E" ++ natChars epNum
    else
      match lookupSeason tbl season with
      | some titles =>
        if epNum - 1 < titles.length then titles.getD (epNum - 1) []
        else if !tff.isEmpty then tff
        else chars "Episode " ++ natChars epNum
      | none =>
        if !tff.isEmpty then tff
        else chars "Episode " ++ natChars epNum
  | none =>
    if !tff.isEmpty then tff
    else chars "S" ++ natChars season ++ chars "E" ++ natChars epNum

/-! ### C7: the Format Normalizer (`ConvertTranscriptFormat._convert_lines`)
and the two dialogue layouts -/

/-- `line.rstrip('\n')`. -/
def rstripNl (l : List Char) : List Char :=
  (l.reverse.dropWhile (fun c => c = '\n')).reverse

/-- Python `f.readlines()` of already-decoded text: split after every
newline, keeping the newline characters. -/
def rlAux : List Char → List Char → List (List Char)
  | acc, [] => if acc.isEmpty then [] else [acc]
  | acc, c :: rest =>
    if c = '\n' then (acc ++ ['\n']) :: rlAux [] rest else rlAux (acc ++ [c]) rest

def readlinesOf (content : List Char) : List (List Char) := rlAux [] content

/-- The look-ahead test `lines[j+1].strip().startswith(':')` of
`_convert_lines` (false when there is no next line). -/
def nextStartsColon : List (List Char) → Bool
  | [] => false
  | q :: _ => (pyStrip q).head? == some ':'

/-- The continuation-peeking loop of `_convert_lines`: gather stripped
lines after a merged `name`/`: dialogue` pair until a blank line, a line
starting with `:`, or a line whose successor starts with `:` (all three
left unconsumed for the next round). -/
def convPeek : List (List Char) → List (List Char) × List (List Char)
  | [] => ([], [])
  | p :: ps =>
    let s := pyStrip p
    if s.isEmpty then ([], p :: ps)
    else if s.head? = some ':' then ([], p :: ps)
    else if nextStartsColon ps then ([], p :: ps)
    else
      let r := convPeek ps
      (s :: r.1, r.2)

/-- The main loop of `_convert_lines` (fuelled by the number of input
lines; a merge consumes at least two lines, a pass-through one, so the
fuel never runs out): when the next line, stripped, starts with `:`, the
current line is a split character name — merge it with the dialogue and
its peeked continuations into one `"Name: text\n"` line; otherwise pass
the line through (dropping it when blank). -/
def convertLinesF : Nat → List (List Char) → List (List Char)
  | 0, _ => []
  | _ + 1, [] => []
  | fuel + 1, l :: rest =>
    let line := rstripNl l
    match rest with
    | next :: rtail =>
      if (pyStrip next).head? = some ':' then
        let pk := convPeek rtail
        (pyStrip line ++ chars ": " ++
            joinWords (pyStrip ((pyStrip next).drop 1) :: pk.1) ++ ['\n'])
          :: convertLinesF fuel pk.2
      else if (pyStrip line).isEmpty then convertLinesF fuel rest
      else (line ++ ['\n']) :: convertLinesF fuel rest
    | [] =>
      if (pyStrip line).isEmpty then convertLinesF fuel []
      else (line ++ ['\n']) :: convertLinesF fuel []

def convertLines (ls : List (List Char)) : List (List Char) :=
  convertLinesF ls.length ls

/-- `f.writelines(converted)`: the written file is the concatenation. -/
def flattenLines (ls : List (List Char)) : List Char := ls.foldr (· ++ ·) []

/-- The two-stage pipeline a transcript goes through: the Format
Normalizer (`convert_file`: `readlines` → `_convert_lines` → `writelines`)
followed by `parse_transcript` on the written file's content. -/
def pipelineParse (keep : Bool) (info : EpInfo) (raw : List Char) : List Dialogue :=
  parseLines keep info (splitNl (flattenLines (convertLines (readlinesOf raw))))

/-! ### C4: the Episode Context Resolver
(`TranscriptScraper._parse_episode_title` for page titles and
`TranscriptToRagProcessor.parse_episode_filename` for filenames) -/

/-- Python `str.replace(pat, rep)` for a non-empty `pat`: replace every
non-overlapping occurrence, scanning left to right (fuelled by the input
length, which always suffices). -/
def replaceAllF (pat rep : List Char) : Nat → List Char → List Char
  | 0, l => l
  | _ + 1, [] => []
  | fuel + 1, c :: rest =>
    if pat.isPrefixOf (c :: rest) && !pat.isEmpty then
      rep ++ replaceAllF pat rep fuel (rest.drop (pat.length - 1))
    else c :: replaceAllF pat rep fuel rest

def replaceAll (pat rep l : List Char) : List Char := replaceAllF pat rep l.length l

/-- `int(s)` on a string of ASCII digits. -/
def parseDigits (l : List Char) : Nat :=
  l.foldl (fun a c => 10 * a + (c.toNat - 48)) 0

/-- Python `str.zfill(2)` on a digit string. -/
def zfill2 (l : List Char) : List Char :=
  if l.length < 2 then List.replicate (2 - l.length) '0' ++ l else l

/-- `f"{n:02d}"` for a natural number. -/
def pad2Nat (n : Nat) : List Char :=
  if n < 10 then '0' :: natChars n else natChars n

/-- What `parse_episode_filename` returns (its result dict). -/
structure EpFileParse where
  season : Nat
  episode_number : Nat
  episode_code : List Char
  title_from_filename : List Char
deriving DecidableEq, Repr

/-- `parse_episode_filename`: strip `.txt` occurrences, then match
`re.match(r'(\d+)x(\d+(?:-\d+)?)(?:_(.+))?', name)` at the start of the
name.  The groups are computed directly: `(\d+)` is the maximal digit run
(backtracking cannot help, because a shorter run would still be followed
by a digit, not `x`), the optional `-\d+` extends the episode string only
when a digit follows the hyphen, and the optional `_(.+)` captures the
rest (up to a newline, which `.` does not match) when non-empty.
`episode_code` is `group(1) + 'x' + episode_str` — the digits exactly as
written, with no zero-padding. -/
def parse_episode_filename (filename : List Char) : Option EpFileParse :=
  let name := replaceAll (chars ".txt") [] filename
  let g1 := name.takeWhile isDigitC
  let r1 := name.drop g1.length
  if g1.isEmpty then none
  else
    match r1 with
    | 'x' :: r2 =>
      let g2a := r2.takeWhile isDigitC
      let r3 := r2.drop g2a.length
      if g2a.isEmpty then none
      else
        let pr :=
          match r3 with
          | '-' :: r4 =>
            let g2b := r4.takeWhile isDigitC
            if g2b.isEmpty then (g2a, false, r3) else (g2a ++ '-' :: g2b, true, r4.drop g2b.length)
          | _ => (g2a, false, r3)
        let title :=
          match pr.2.2 with
          | '_' :: r6 =>
            let tt := r6.takeWhile (fun c => c ≠ '\n')
            if tt.isEmpty then [] else tt.map (fun c => if c = '_' then ' ' else c)
          | _ => []
        some { season := parseDigits g1,
               episode_number := parseDigits g2a,
               episode_code := g1 ++ 'x' :: pr.1,
               title_from_filename := title }
    | _ => none

/-- What `_parse_episode_title` returns (the fields the claims use; the
`full_title` echo and the sanitized `filename` are omitted). -/
structure EpTitleParse where
  season : Nat
  episode_num : Nat
  name : List Char
  episode_code : List Char
deriving DecidableEq, Repr

/-- One attempt of `re.search(r'(\d+)x(\d+(?:/\d+)?)\s*(.*)', title, re.I)`
at a fixed start position: maximal digit run, `x` or `X`, maximal digit
run, optionally `/` plus a maximal digit run, then `\s*` and `(.*)` up to
a newline.  Returns the three groups. -/
def epTitleMatchAt (s : List Char) : Option (List Char × List Char × List Char) :=
  let g1 := s.takeWhile isDigitC
  let r1 := s.drop g1.length
  if g1.isEmpty then none
  else
    match r1 with
    | c :: r2 =>
      if c = 'x' || c = 'X' then
        let g2a := r2.takeWhile isDigitC
        let r3 := r2.drop g2a.length
        if g2a.isEmpty then none
        else
          let pr :=
            match r3 with
            | '/' :: r4 =>
              let g2b := r4.takeWhile isDigitC
              if g2b.isEmpty then (g2a, r3) else (g2a ++ '/' :: g2b, r4.drop g2b.length)
            | _ => (g2a, r3)
          some (g1, pr.1, (pr.2.dropWhile isPyWs).takeWhile (fun c => c ≠ '\n'))
      else none
    | [] => none

/-- `re.search`: try the pattern at each position, leftmost match wins. -/
def epTitleSearch : List Char → Option (List Char × List Char × List Char)
  | [] => none
  | c :: rest =>
    match epTitleMatchAt (c :: rest) with
    | some r => some r
    | none => epTitleSearch rest

/-- `_parse_episode_title`: search for the episode pattern anywhere in the
forum title; for a double episode `a/b` the canonical code is
`f"{season:02d}x{a.zfill(2)}-{b.zfill(2)}"` and the episode number is
`int(a)`; otherwise `f"{season:02d}x{e.zfill(2)}"`. -/
def parse_episode_title (title : List Char) : Option EpTitleParse :=
  match epTitleSearch title with
  | none => none
  | some (g1, g2, g3) =>
    let season := parseDigits g1
    match splitAtFirst '/' g2 with
    | some (a, b) =>
      some { season := season, episode_num := parseDigits a,
             name := pyStrip g3,
             episode_code := pad2Nat season ++ 'x' :: (zfill2 a ++ '-' :: zfill2 b) }
    | none =>
      some { season := season, episode_num := parseDigits g2,
             name := pyStrip g3,
             episode_code := pad2Nat season ++ 'x' :: zfill2 g2 }

/-- The canonical episode code C4 claims:
`zeroPad2(season) + "x" + zeroPad2(ep1)` with `-zeroPad2(ep2)` appended
for a double episode. -/
def canonCode (s e1 : Nat) : Option Nat → List Char
  | none => pad2Nat s ++ 'x' :: pad2Nat e1
  | some e2 => pad2Nat s ++ 'x' :: (pad2Nat e1 ++ '-' :: pad2Nat e2)

/-- The claim of C4 as stated: every successfully parsed unit — filename
stem or page title — carries a zero-padded canonical code. -/
def claimC4 : Prop :=
  (∀ (fn : List Char) (i : EpFileParse), parse_episode_filename fn = some i →
    ∃ e2 : Option Nat, i.episode_code = canonCode i.season i.episode_number e2)
  ∧ (∀ (t : List Char) (i : EpTitleParse), parse_episode_title t = some i →
      ∃ e2 : Option Nat, i.episode_code = canonCode i.season i.episode_num e2)

/-! ### C1: the accumulation discipline, stated through the spec's
classifier-driven state machine -/

/-- The spec's exhaustive line classification (§4.2), evaluated in the
source's order: Blank, then SceneMarker, then CharacterLine, anything
else a Continuation carrying the stripped line. -/
inductive LineClass where
  | blank : LineClass
  | scene (text : List Char) : LineClass
  | charline (name remainder : List Char) : LineClass
  | cont (text : List Char) : LineClass
deriving DecidableEq, Repr

def classify (raw : List Char) : LineClass :=
  let s := pyStrip raw
  if s.isEmpty then LineClass.blank
  else if isSceneMarker s then LineClass.scene (stripBrk s)
  else
    match charLineMatch s with
    | some (nm, r) => LineClass.charline nm r
    | none => LineClass.cont s

/-- Continuation collection as C1 claims it: every Continuation is
appended, and accumulation stops at a Blank, a CharacterLine or any
SceneMarker, each terminator pushed back for re-classification. -/
def specCollectC : List (List Char) → List (List Char) × List (List Char)
  | [] => ([], [])
  | l :: rest =>
    match classify l with
    | LineClass.cont t =>
      let p := specCollectC rest
      (t :: p.1, p.2)
    | _ => ([], l :: rest)

/-- The assembler as C1 claims it (fuelled like `parseLoopF`): a
CharacterLine starts ACCUMULATING with `parts = [remainder]` or `[]`, and
in either case subsequent Continuations are appended until a terminator. -/
def specParseCF (keep : Bool) (info : EpInfo) :
    Nat → List Char → Nat → List (List Char) → List Dialogue
  | 0, _, _, _ => []
  | _ + 1, _, _, [] => []
  | fuel + 1, scene, n, l :: rest =>
    match classify l with
    | LineClass.blank => specParseCF keep info fuel scene n rest
    | LineClass.scene t => specParseCF keep info fuel t n rest
    | LineClass.cont _ => specParseCF keep info fuel scene n rest
    | LineClass.charline nm r =>
      let ds := pyStrip r
      let col := specCollectC rest
      let parts := (if ds.isEmpty then [] else [ds]) ++ col.1
      let raw := pyStrip (joinWords parts)
      let t := if keep then raw else pyStrip (removeParens raw)
      if emitOK t then
        mkDialogue info (normalize_character_name nm) t scene (n + 1)
          :: specParseCF keep info fuel scene (n + 1) col.2
      else specParseCF keep info fuel scene n col.2

def specParseCFrom (keep : Bool) (info : EpInfo) (scene : List Char) (n : Nat)
    (lines : List (List Char)) : List Dialogue :=
  specParseCF keep info lines.length scene n lines

/-- The claim of C1 as stated: the source's assembler behaves like the
claimed machine from every assembler state. -/
def claimC1 : Prop :=
  ∀ (keep : Bool) (info : EpInfo) (scene : List Char) (n : Nat)
    (lines : List (List Char)),
    parseFrom keep info scene n lines = specParseCFrom keep info scene n lines

/-- Continuation collection as the source implements it, in classifier
vocabulary: a Blank terminates and is consumed; a CharacterLine
terminates with pushback; a SceneMarker terminates with pushback only
when it starts with `[` — an all-caps heuristic SceneMarker is appended
like a Continuation; Continuations are appended. -/
def specCollectA : List (List Char) → List (List Char) × List (List Char)
  | [] => ([], [])
  | l :: rest =>
    match classify l with
    | LineClass.blank => ([], rest)
    | LineClass.charline _ _ => ([], l :: rest)
    | LineClass.scene _ =>
      if (pyStrip l).head? = some '[' then ([], l :: rest)
      else
        let p := specCollectA rest
        (pyStrip l :: p.1, p.2)
    | LineClass.cont t =>
      let p := specCollectA rest
      (t :: p.1, p.2)

/-- The assembler as the source implements it, in classifier vocabulary:
a CharacterLine with a non-empty remainder flushes `[remainder]` at once,
consuming no continuation; only an empty remainder triggers collection. -/
def specParseAF (keep : Bool) (info : EpInfo) :
    Nat → List Char → Nat → List (List Char) → List Dialogue
  | 0, _, _, _ => []
  | _ + 1, _, _, [] => []
  | fuel + 1, scene, n, l :: rest =>
    match classify l with
    | LineClass.blank => specParseAF keep info fuel scene n rest
    | LineClass.scene t => specParseAF keep info fuel t n rest
    | LineClass.cont _ => specParseAF keep info fuel scene n rest
    | LineClass.charline nm r =>
      let ds := pyStrip r
      let col := if ds.isEmpty then specCollectA rest else ([ds], rest)
      let raw := pyStrip (joinWords col.1)
      let t := if keep then raw else pyStrip (removeParens raw)
      if emitOK t then
        mkDialogue info (normalize_character_name nm) t scene (n + 1)
          :: specParseAF keep info fuel scene (n + 1) col.2
      else specParseAF keep info fuel scene n col.2

def specParseAFrom (keep : Bool) (info : EpInfo) (scene : List Char) (n : Nat)
    (lines : List (List Char)) : List Dialogue :=
  specParseAF keep info lines.length scene n lines

/-! ### C8: the transform's warnings output -/

/-- The spec's per-line warning (§7): a line that could not be classified
usefully. -/
inductive ParseWarning where
  | malformedLine (raw : List Char) : ParseWarning
deriving DecidableEq, Repr

/-- The core transform's result in the spec's shape
`(raw_lines, config) -> (dialogues, warnings)`: the dialogue list the
source's `parse_transcript` returns, paired with the warnings the source
records while parsing.  The source's loop contains no warning-recording
statement of any kind — a line that matches nothing falls through the
`if match:` with only `i += 1` — and the function returns only the
dialogue list, so the recorded-warnings component is empty by
construction. -/
def parse_transcript_result (keep : Bool) (info : EpInfo) (lines : List (List Char)) :
    List Dialogue × List ParseWarning :=
  (parseLines keep info lines, [])

/-- The claim of C8 as stated: whenever some line of the unit cannot be
classified usefully, a ParseWarning is recorded in the returned warnings
sequence. -/
def claimC8 : Prop :=
  ∀ (keep : Bool) (info : EpInfo) (lines : List (List Char)) (l : List Char),
    l ∈ lines → (pyStrip l).isEmpty = false → isSceneMarker (pyStrip l) = false →
    charLineMatch (pyStrip l) = none →
    (parse_transcript_result keep info lines).2 ≠ []

/-! ## Theorems -/

theorem char_toNat_ofNat {n : Nat} (h : n < 0xd800) : (Char.ofNat n).toNat = n := by
  unfold Char.ofNat Char.toNat
  split
  · simp [Char.ofNatAux, UInt32.toNat, BitVec.toNat_ofNatLt]
  · rename_i hh; exact absurd (Or.inl h) hh

theorem char_eq_of_toNat {c d : Char} (h : c.toNat = d.toNat) : c = d := by
  apply Char.ext
  unfold Char.toNat at h
  exact UInt32.toNat.inj h

theorem char_toNat_lt (c : Char) : c.toNat < 1114112 := by
  have := c.valid
  unfold Char.toNat
  rcases this with h | ⟨_, h⟩ <;> omega

theorem toNat_upC_of_lower {c : Char} (h : isAsciiLower c) :
    (upC c).toNat = c.toNat - 32 := by
  simp only [upC, h, if_pos]
  simp only [isAsciiLower, Bool.and_eq_true, decide_eq_true_eq] at h
  exact char_toNat_ofNat (by omega)

theorem upC_of_not_lower {c : Char} (h : ¬ isAsciiLower c) : upC c = c := by
  simp [upC, h]

theorem toNat_lowC_of_upper {c : Char} (h : isAsciiUpper c) :
    (lowC c).toNat = c.toNat + 32 := by
  simp only [lowC, h, if_pos]
  simp only [isAsciiUpper, Bool.and_eq_true, decide_eq_true_eq] at h
  exact char_toNat_ofNat (by omega)

theorem lowC_of_not_upper {c : Char} (h : ¬ isAsciiUpper c) : lowC c = c := by
  simp [lowC, h]

theorem isAsciiLower_iff {c : Char} :
    isAsciiLower c = true ↔ 97 ≤ c.toNat ∧ c.toNat ≤ 122 := by
  simp [isAsciiLower]

theorem isAsciiUpper_iff {c : Char} :
    isAsciiUpper c = true ↔ 65 ≤ c.toNat ∧ c.toNat ≤ 90 := by
  simp [isAsciiUpper]

/-- Upper-casing an ASCII lower-case letter yields an upper-case letter. -/
theorem isAsciiUpper_upC_of_lower {c : Char} (h : isAsciiLower c) :
    isAsciiUpper (upC c) = true := by
  rw [isAsciiUpper_iff, toNat_upC_of_lower h]
  rw [isAsciiLower_iff] at h
  omega

theorem isAsciiLower_lowC_of_upper {c : Char} (h : isAsciiUpper c) :
    isAsciiLower (lowC c) = true := by
  rw [isAsciiLower_iff, toNat_lowC_of_upper h]
  rw [isAsciiUpper_iff] at h
  omega

theorem upC_upC (c : Char) : upC (upC c) = upC c := by
  by_cases h : isAsciiLower c
  · apply upC_of_not_lower
    have := isAsciiUpper_upC_of_lower h
    rw [isAsciiLower_iff, toNat_upC_of_lower h]
    rw [isAsciiLower_iff] at h
    omega
  · rw [upC_of_not_lower h, upC_of_not_lower h]

theorem lowC_lowC (c : Char) : lowC (lowC c) = lowC c := by
  by_cases h : isAsciiUpper c
  · apply lowC_of_not_upper
    rw [isAsciiUpper_iff, toNat_lowC_of_upper h]
    rw [isAsciiUpper_iff] at h
    omega
  · rw [lowC_of_not_upper h, lowC_of_not_upper h]

theorem isAsciiAlpha_upC (c : Char) : isAsciiAlpha (upC c) = isAsciiAlpha c := by
  by_cases h : isAsciiLower c
  · simp only [isAsciiAlpha, isAsciiUpper_upC_of_lower h, h, Bool.true_or, Bool.or_true]
  · rw [upC_of_not_lower h]

theorem isAsciiAlpha_lowC (c : Char) : isAsciiAlpha (lowC c) = isAsciiAlpha c := by
  by_cases h : isAsciiUpper c
  · simp only [isAsciiAlpha, isAsciiLower_lowC_of_upper h, h, Bool.true_or, Bool.or_true]
  · rw [lowC_of_not_upper h]

theorem not_isPyWs_of_alpha {c : Char} (h : isAsciiAlpha c = true) : isPyWs c = false := by
  simp only [isAsciiAlpha, isAsciiUpper, isAsciiLower, Bool.or_eq_true, Bool.and_eq_true,
    decide_eq_true_eq] at h
  simp only [isPyWs, Bool.or_eq_false_iff, decide_eq_false_iff_not]
  refine ⟨⟨⟨⟨⟨?_, ?_⟩, ?_⟩, ?_⟩, ?_⟩, ?_⟩ <;> intro hc <;> subst hc <;>
    revert h <;> decide

theorem collectCont_length_le : ∀ ls : List (List Char), (collectCont ls).2.length ≤ ls.length := by
  intro ls
  induction ls with
  | nil => simp [collectCont]
  | cons l rest ih =>
    simp only [collectCont]
    split
    · simp
    · split
      · simp
      · split
        · simp
        · simpa using Nat.le_succ_of_le ih

theorem parseLoopF_zero (keep : Bool) (info : EpInfo) (scene : List Char) (n : Nat)
    (ls : List (List Char)) : parseLoopF keep info 0 scene n ls = [] := rfl

theorem parseLoopF_nil (keep : Bool) (info : EpInfo) (fuel : Nat) (scene : List Char)
    (n : Nat) : parseLoopF keep info (fuel + 1) scene n [] = [] := rfl

theorem parseLoopF_cons (keep : Bool) (info : EpInfo) (fuel : Nat) (scene : List Char)
    (n : Nat) (l : List Char) (rest : List (List Char)) :
    parseLoopF keep info (fuel + 1) scene n (l :: rest) =
      if (pyStrip l).isEmpty then parseLoopF keep info fuel scene n rest
      else if isSceneMarker (pyStrip l) then
        parseLoopF keep info fuel (stripBrk (pyStrip l)) n rest
      else
        match charLineMatch (pyStrip l) with
        | none => parseLoopF keep info fuel scene n rest
        | some (rawName, rawRem) =>
          let ft := flushInfo keep rawRem rest
          if emitOK ft.1 then
            mkDialogue info (normalize_character_name rawName) ft.1 scene (n + 1) ::
              parseLoopF keep info fuel scene (n + 1) ft.2
          else parseLoopF keep info fuel scene n ft.2 := rfl

/-! ### C5: line-number contiguity -/

theorem parseLoopF_map_line_number (keep : Bool) (info : EpInfo) :
    ∀ (fuel : Nat) (scene : List Char) (n : Nat) (ls : List (List Char)),
      (parseLoopF keep info fuel scene n ls).map Dialogue.line_number
        = List.range' (n + 1) (parseLoopF keep info fuel scene n ls).length := by
  intro fuel
  induction fuel with
  | zero => intro scene n ls; rw [parseLoopF_zero]; rfl
  | succ fuel ih =>
    intro scene n ls
    cases ls with
    | nil => rw [parseLoopF_nil]; rfl
    | cons l rest =>
      rw [parseLoopF_cons]
      split
      · exact ih scene n rest
      · split
        · exact ih (stripBrk (pyStrip l)) n rest
        · cases hm : charLineMatch (pyStrip l) with
          | none => exact ih scene n rest
          | some p =>
            obtain ⟨rawName, rawRem⟩ := p
            simp only []
            split
            · simp only [List.map_cons, List.length_cons, mkDialogue]
              rw [ih scene (n + 1), List.range'_succ]
            · exact ih scene n _

/-- C5: for every input unit, the `line_number` values of the emitted
Dialogue records, in emission order, form exactly the contiguous sequence
`1..k` where `k` is the number of emitted records, no matter how many raw
lines were discarded.  (`line_number` starts at `0` and is incremented
exactly when a record is emitted, the record receiving the incremented
value.) -/
theorem c5_line_numbers_contiguous (keep : Bool) (info : EpInfo)
    (lines : List (List Char)) :
    (parseLines keep info lines).map Dialogue.line_number
      = List.range' 1 (parseLines keep info lines).length :=
  parseLoopF_map_line_number keep info lines.length (chars "Opening") 0 lines

/-- C9: processing a non-blank line that is not a scene marker (after
stripping it does not start with `[` and is not an all-upper-case,
colon-free line shorter than 100 characters) and does not match the
character-line pattern leaves the assembler state untouched: no Dialogue
is emitted, the current scene is unchanged and the per-episode line
counter is unchanged — the parse from any state `(scene, n)` with the
offending line in front equals the parse from the same state without it. -/
theorem c9_unclassifiable_line_is_noop (keep : Bool) (info : EpInfo)
    (scene : List Char) (n : Nat) (bad : List Char) (rest : List (List Char))
    (hne : (pyStrip bad).isEmpty = false)
    (hscene : isSceneMarker (pyStrip bad) = false)
    (hchar : charLineMatch (pyStrip bad) = none) :
    parseFrom keep info scene n (bad :: rest) = parseFrom keep info scene n rest := by
  show parseLoopF keep info (rest.length + 1) scene n (bad :: rest)
      = parseLoopF keep info rest.length scene n rest
  rw [parseLoopF_cons, hne, hscene, hchar]
  rfl

/-- Witness for C9: the line `"lowercase speaker: hi"` (its speaker begins
with a lower-case letter, so the character-line regex rejects it) is
dropped without touching the state. -/
theorem c9_witness :
    (pyStrip (chars "lowercase speaker: hi")).isEmpty = false
    ∧ isSceneMarker (pyStrip (chars "lowercase speaker: hi")) = false
    ∧ charLineMatch (pyStrip (chars "lowercase speaker: hi")) = none
    ∧ parseFrom true ⟨chars "01x01", 1, 1, chars "Pilot"⟩ (chars "Opening") 0
        (chars "lowercase speaker: hi" :: [chars "Pam: Hi"])
      = parseFrom true ⟨chars "01x01", 1, 1, chars "Pilot"⟩ (chars "Opening") 0
        [chars "Pam: Hi"] :=
  ⟨by decide, by decide, by decide,
    c9_unclassifiable_line_is_noop true ⟨chars "01x01", 1, 1, chars "Pilot"⟩
      (chars "Opening") 0 (chars "lowercase speaker: hi") [chars "Pam: Hi"]
      (by decide) (by decide) (by decide)⟩

/-- C10: when the transcript file cannot be opened or decoded (the `none`
case of the read result, covering the source's `try/except` around
`open`/`read`), `parse_transcript` returns the empty record list — being a
total function of the read result, it raises nothing, and no partial
records are produced for an unreadable unit. -/
theorem c10_unreadable_unit_is_empty (keep : Bool) (info : EpInfo) :
    parse_transcript keep info none = [] := rfl

theorem all_dash_eq_replicate :
    ∀ t : List Char, t.all (fun c => c = '-') = true → t = List.replicate t.length '-' := by
  intro t
  induction t with
  | nil => intro _; rfl
  | cons c rest ih =>
    intro h
    simp only [List.all_cons, Bool.and_eq_true, decide_eq_true_eq] at h
    simp only [List.length_cons, List.replicate_succ, h.1]
    exact congrArg _ (ih (by simpa using h.2))

theorem mem_dashes_iff (t : List Char) :
    dashes.contains t = true ↔
      t.all (fun c => c = '-') = true ∧ 3 ≤ t.length ∧ t.length ≤ 7 := by
  constructor
  · intro h
    simp only [dashes, List.contains, List.elem_eq_mem, decide_eq_true_eq,
      List.mem_cons, List.not_mem_nil, or_false] at h
    rcases h with h | h | h | h | h <;> subst h <;> exact ⟨by decide, by decide, by decide⟩
  · rintro ⟨hall, h3, h7⟩
    rw [all_dash_eq_replicate t hall]
    have h := h3
    simp only [dashes, List.contains, List.elem_eq_mem, decide_eq_true_eq, List.mem_cons]
    interval_cases ht : t.length <;> simp [List.replicate, chars]

/-- Counterexample to C2 as stated: the emission test accepts the
two-hyphen run `"--"` (the source only blacklists the five literals
`'---'`..`'-------'`), and accordingly the one-line unit `"Jim: --"`
produces a Dialogue record with text `"--"` under either configuration. -/
theorem c2_counterexample :
    ¬ claimC2
    ∧ (parseLines true info0 [chars "Jim: --"]).map (fun d => d.text) = [chars "--"]
    ∧ (parseLines false info0 [chars "Jim: --"]).map (fun d => d.text) = [chars "--"] :=
  ⟨fun h => absurd (h (chars "--") (by decide)) (by decide), by decide, by decide⟩

/-- C2 amended: a flushed text is discarded (no record, no line-number
increment) exactly when it is empty or is a run of 3 to 7 hyphen
characters; in particular `["Jim: ----"]` yields zero Dialogue records for
either value of `keep_stage_directions`, and a record emitted after such a
discard still receives line number 1. -/
theorem c2_amended_discard_rule :
    (∀ t : List Char,
      emitOK t = false ↔
        t.isEmpty = true ∨ (t.all (fun c => c = '-') = true ∧ 3 ≤ t.length ∧ t.length ≤ 7))
    ∧ (∀ keep : Bool, parseLines keep info0 [chars "Jim: ----"] = [])
    ∧ (∀ keep : Bool,
        (parseLines keep info0 [chars "Jim: ----", chars "Pam: Hi"]).map
            (fun d => (d.text, d.line_number))
          = [(chars "Hi", 1)]) := by
  refine ⟨fun t => ?_, fun keep => ?_, fun keep => ?_⟩
  · rw [← mem_dashes_iff]
    simp only [emitOK, Bool.and_eq_false_iff, Bool.not_eq_false', List.isEmpty_iff]
  · cases keep <;> decide
  · cases keep <;> decide

/-- Counterexample to C3 as stated: with a table `{1: ["Diversity Day"]}`
and filename title `"Pilot"` the source resolves to the table entry
(table lookup takes priority over the filename capture, not the other way
round), and with no table and no filename title the placeholder is
`"S1E5"`, not `"Episode 5"`. -/
theorem c3_counterexample :
    ¬ claimC3
    ∧ resolveEpisodeTitle (some [(1, [chars "Diversity Day"])]) 1 1 (chars "Pilot")
        = chars "Diversity Day"
    ∧ claimTitleResolve (some [(1, [chars "Diversity Day"])]) 1 1 (chars "Pilot")
        = chars "Pilot"
    ∧ resolveEpisodeTitle none 1 5 [] = chars "S1E5" :=
  ⟨fun h =>
    absurd (h (some [(1, [chars "Diversity Day"])]) 1 1 (chars "Pilot")) (by decide),
   by decide, by decide, by decide⟩

/-- C3 amended: for every unit the source's title resolution follows the
table-first priority of `amendedTitleResolve` (the `1 ≤ epNum` hypothesis
scopes the statement to the episode numbers the filename parser can pair
with a transcript, where the natural-number index model is faithful). -/
theorem c3_amended_title_priority (table : Option (List (Nat × List (List Char))))
    (season epNum : Nat) (tff : List Char) (h : 1 ≤ epNum) :
    resolveEpisodeTitle table season epNum tff
      = amendedTitleResolve table season epNum tff := by
  cases table with
  | none => rfl
  | some tbl =>
    simp only [resolveEpisodeTitle, amendedTitleResolve]
    split
    · rfl
    · cases hl : lookupSeason tbl season with
      | none => simp [hl]
      | some titles => by_cases hi : epNum - 1 < titles.length <;> simp [hl, hi]

/-- Witness for C3's amended theorem at episode 1 of season 1 with the
table `{1: ["Diversity Day"]}` and filename title `"Pilot"`. -/
theorem c3_amended_witness :
    (1 : Nat) ≤ 1
    ∧ resolveEpisodeTitle (some [(1, [chars "Diversity Day"])]) 1 1 (chars "Pilot")
        = amendedTitleResolve (some [(1, [chars "Diversity Day"])]) 1 1 (chars "Pilot") :=
  ⟨Nat.le_refl 1,
   c3_amended_title_priority (some [(1, [chars "Diversity Day"])]) 1 1 (chars "Pilot")
     (Nat.le_refl 1)⟩

/-- C7: the inline layout `"Michael: Hello."` and the split layout
`"Michael\n: Hello.\n"`, run through the Format Normalizer and then the
Dialogue Assembler, produce the identical Dialogue record — same
character, same text, same line number — for either stage-direction
configuration and for every episode context. -/
theorem c7_inline_and_split_layouts_agree (keep : Bool) (info : EpInfo) :
    pipelineParse keep info (chars "Michael: Hello.")
        = pipelineParse keep info (chars "Michael\n: Hello.\n")
    ∧ pipelineParse keep info (chars "Michael: Hello.")
        = [mkDialogue info (chars "Michael") (chars "Hello.") (chars "Opening") 1] := by
  cases keep <;> exact ⟨rfl, rfl⟩


/-! ### C4: canonical episode codes -/

theorem takeWhile_eq_self_of_all {p : Char → Bool} :
    ∀ {l : List Char}, l.all p = true → l.takeWhile p = l := by
  intro l
  induction l with
  | nil => intro _; rfl
  | cons c rest ih =>
    intro h
    simp only [List.all_cons, Bool.and_eq_true] at h
    simp [List.takeWhile_cons, h.1, ih h.2]

theorem takeWhile_append_stop {p : Char → Bool} {l : List Char} {c : Char}
    (hl : l.all p = true) (hc : p c = false) (r : List Char) :
    (l ++ c :: r).takeWhile p = l := by
  induction l with
  | nil => simp [List.takeWhile_cons, hc]
  | cons a l ih =>
    simp only [List.all_cons, Bool.and_eq_true] at hl
    simp [List.takeWhile_cons, hl.1, ih hl.2]

theorem all_dropWhile {p q : Char → Bool} :
    ∀ {l : List Char}, l.all p = true → (l.dropWhile q).all p = true := by
  intro l
  induction l with
  | nil => intro _; exact rfl
  | cons c rest ih =>
    intro h
    simp only [List.all_cons, Bool.and_eq_true] at h
    rw [List.dropWhile_cons]
    split
    · exact ih h.2
    · simp [List.all_cons, h.1, h.2]

theorem splitAtFirst_append {t : Char} {l : List Char}
    (hl : l.all (fun c => !(c = t)) = true) (r : List Char) :
    splitAtFirst t (l ++ t :: r) = some (l, r) := by
  induction l with
  | nil => simp [splitAtFirst]
  | cons a l ih =>
    simp only [List.all_cons, Bool.and_eq_true, Bool.not_eq_true', decide_eq_false_iff_not] at hl
    simp [splitAtFirst, hl.1, ih (by simpa using hl.2)]

theorem splitAtFirst_none {t : Char} :
    ∀ {l : List Char}, l.all (fun c => !(c = t)) = true → splitAtFirst t l = none := by
  intro l
  induction l with
  | nil => intro _; rfl
  | cons a l ih =>
    intro h
    simp only [List.all_cons, Bool.and_eq_true, Bool.not_eq_true', decide_eq_false_iff_not] at h
    simp [splitAtFirst, h.1, ih (by simpa using h.2)]

theorem dropWhile_idem (p : Char → Bool) :
    ∀ l : List Char, (l.dropWhile p).dropWhile p = l.dropWhile p := by
  intro l
  induction l with
  | nil => rfl
  | cons c rest ih =>
    rw [List.dropWhile_cons]
    split
    · exact ih
    · rename_i h
      rw [List.dropWhile_cons, if_neg h]

theorem pyStrip_dropWhile_ws (l : List Char) :
    pyStrip (l.dropWhile isPyWs) = pyStrip l := by
  simp [pyStrip, stripL, dropWhile_idem]

theorem replaceAllF_nil (pat rep : List Char) : ∀ fuel, replaceAllF pat rep fuel [] = [] := by
  intro fuel; cases fuel <;> rfl

theorem replaceAllF_strip_txt :
    ∀ (pre : List Char) (fuel : Nat), (pre ++ chars ".txt").length ≤ fuel →
      pre.all (fun c => !(c = '.')) = true →
      replaceAllF (chars ".txt") [] fuel (pre ++ chars ".txt") = pre := by
  intro pre
  induction pre with
  | nil =>
    intro fuel hf _
    cases fuel with
    | zero => simp [chars] at hf
    | succ f =>
      show replaceAllF (chars ".txt") [] (f + 1) (chars ".txt") = []
      rw [show chars ".txt" = '.' :: chars "txt" from rfl]
      simp only [replaceAllF]
      rw [if_pos (by decide)]
      simp [replaceAllF_nil, chars]
  | cons a pre ih =>
    intro fuel hf hd
    simp only [List.all_cons, Bool.and_eq_true, Bool.not_eq_true', decide_eq_false_iff_not] at hd
    cases fuel with
    | zero => simp at hf
    | succ f =>
      rw [List.cons_append]
      simp only [replaceAllF]
      rw [if_neg, ih f (by simpa using Nat.le_of_succ_le_succ hf) (by simpa using hd.2)]
      simp only [Bool.and_eq_true, Bool.not_eq_true']
      intro hcon
      have := hcon.1
      rw [show chars ".txt" = '.' :: chars "txt" from rfl] at this
      simp only [List.isPrefixOf, Bool.and_eq_true, beq_iff_eq] at this
      exact hd.1 this.1.symm

theorem replaceAll_strip_txt (pre : List Char)
    (hd : pre.all (fun c => !(c = '.')) = true) :
    replaceAll (chars ".txt") [] (pre ++ chars ".txt") = pre :=
  replaceAllF_strip_txt pre _ (Nat.le_refl _) hd

theorem epTitleSearch_head {l : List Char} {r : List Char × List Char × List Char}
    (hne : l ≠ []) (h : epTitleMatchAt l = some r) : epTitleSearch l = some r := by
  cases l with
  | nil => exact absurd rfl hne
  | cons c rest => simp [epTitleSearch, h]

theorem all_ne_of_all_digit {t : Char} (ht : isDigitC t = false) {l : List Char}
    (h : l.all isDigitC = true) : l.all (fun c => !(c = t)) = true := by
  rw [List.all_eq_true] at h ⊢
  intro c hc
  have hd := h c hc
  simp only [Bool.not_eq_true', decide_eq_false_iff_not]
  intro he
  rw [he, ht] at hd
  exact Bool.false_ne_true hd

theorem epTitleMatchAt_double (d1 d2 d3 name : List Char)
    (h1e : d1 ≠ []) (h1d : d1.all isDigitC = true)
    (h2e : d2 ≠ []) (h2d : d2.all isDigitC = true)
    (h3e : d3 ≠ []) (h3d : d3.all isDigitC = true) :
    epTitleMatchAt (d1 ++ 'x' :: (d2 ++ '/' :: (d3 ++ ' ' :: name)))
      = some (d1, d2 ++ '/' :: d3, (name.dropWhile isPyWs).takeWhile (fun c => c ≠ '\n')) := by
  have e1 : (d1 ++ 'x' :: (d2 ++ '/' :: (d3 ++ ' ' :: name))).takeWhile isDigitC = d1 :=
    takeWhile_append_stop h1d (by decide) _
  have e2 : (d1 ++ 'x' :: (d2 ++ '/' :: (d3 ++ ' ' :: name))).drop d1.length
      = 'x' :: (d2 ++ '/' :: (d3 ++ ' ' :: name)) := List.drop_left d1 _
  have e3 : (d2 ++ '/' :: (d3 ++ ' ' :: name)).takeWhile isDigitC = d2 :=
    takeWhile_append_stop h2d (by decide) _
  have e4 : (d2 ++ '/' :: (d3 ++ ' ' :: name)).drop d2.length
      = '/' :: (d3 ++ ' ' :: name) := List.drop_left d2 _
  have e5 : (d3 ++ ' ' :: name).takeWhile isDigitC = d3 :=
    takeWhile_append_stop h3d (by decide) _
  have e6 : (d3 ++ ' ' :: name).drop d3.length = ' ' :: name := List.drop_left d3 _
  simp only [epTitleMatchAt, e1, e2, e3, e4, e5, e6]
  simp [h1e, h2e, h3e, List.dropWhile_cons, isPyWs]

theorem epTitleMatchAt_single (d1 d2 name : List Char)
    (h1e : d1 ≠ []) (h1d : d1.all isDigitC = true)
    (h2e : d2 ≠ []) (h2d : d2.all isDigitC = true) :
    epTitleMatchAt (d1 ++ 'x' :: (d2 ++ ' ' :: name))
      = some (d1, d2, (name.dropWhile isPyWs).takeWhile (fun c => c ≠ '\n')) := by
  have e1 : (d1 ++ 'x' :: (d2 ++ ' ' :: name)).takeWhile isDigitC = d1 :=
    takeWhile_append_stop h1d (by decide) _
  have e2 : (d1 ++ 'x' :: (d2 ++ ' ' :: name)).drop d1.length = 'x' :: (d2 ++ ' ' :: name) :=
    List.drop_left d1 _
  have e3 : (d2 ++ ' ' :: name).takeWhile isDigitC = d2 :=
    takeWhile_append_stop h2d (by decide) _
  have e4 : (d2 ++ ' ' :: name).drop d2.length = ' ' :: name := List.drop_left d2 _
  simp only [epTitleMatchAt, e1, e2, e3, e4]
  simp [h1e, h2e, List.dropWhile_cons, isPyWs]

/-- Counterexample to C4 as stated: the filename `"1x1.txt"` parses, but
its `episode_code` is the unpadded `"1x1"` — `parse_episode_filename`
builds the code from the digit strings exactly as written, without any
zero-padding, so no `zeroPad2`-canonical code matches it. -/
theorem c4_counterexample :
    ¬ claimC4
    ∧ parse_episode_filename (chars "1x1.txt") = some ⟨1, 1, chars "1x1", []⟩ := by
  constructor
  · rintro ⟨hf, _⟩
    obtain ⟨e2, hc⟩ := hf (chars "1x1.txt") ⟨1, 1, chars "1x1", []⟩ (by decide)
    cases e2 with
    | none => exact absurd hc (by decide)
    | some k =>
      have hh : (chars "1x1").head? = (canonCode 1 1 (some k)).head? := congrArg List.head? hc
      rw [show (canonCode 1 1 (some k)).head? = some '0' from rfl] at hh
      exact absurd hh (by decide)
  · decide

/-- C4 amended: the page-title resolver (`_parse_episode_title`) produces
the zero-padded canonical code — `f"{season:02d}x{zfill2(ep1)}"`, with
`-zfill2(ep2)` appended for a double episode written `ep1/ep2` — and its
`episode_num` is always the first number; the filename parser
(`parse_episode_filename`) produces the code `season + "x" + episodes`
with the digit strings exactly as written in the filename (no padding),
its `episode_number` again the first number of a double episode. -/
theorem c4_amended_codes (d1 d2 d3 name : List Char)
    (h1e : d1 ≠ []) (h1d : d1.all isDigitC = true)
    (h2e : d2 ≠ []) (h2d : d2.all isDigitC = true)
    (h3e : d3 ≠ []) (h3d : d3.all isDigitC = true)
    (hn : name.all (fun c => !(c = '\n')) = true) :
    parse_episode_title (d1 ++ 'x' :: (d2 ++ '/' :: (d3 ++ ' ' :: name)))
        = some { season := parseDigits d1, episode_num := parseDigits d2,
                 name := pyStrip name,
                 episode_code :=
                   pad2Nat (parseDigits d1) ++ 'x' :: (zfill2 d2 ++ '-' :: zfill2 d3) }
    ∧ parse_episode_title (d1 ++ 'x' :: (d2 ++ ' ' :: name))
        = some { season := parseDigits d1, episode_num := parseDigits d2,
                 name := pyStrip name,
                 episode_code := pad2Nat (parseDigits d1) ++ 'x' :: zfill2 d2 }
    ∧ parse_episode_filename ((d1 ++ 'x' :: (d2 ++ '-' :: d3)) ++ chars ".txt")
        = some { season := parseDigits d1, episode_number := parseDigits d2,
                 episode_code := d1 ++ 'x' :: (d2 ++ '-' :: d3),
                 title_from_filename := [] } := by
  have hg3 : ∀ nm : List Char, nm.all (fun c => !(c = '\n')) = true →
      (nm.dropWhile isPyWs).takeWhile (fun c => c ≠ '\n') = nm.dropWhile isPyWs := by
    intro nm hnm
    apply takeWhile_eq_self_of_all
    have := all_dropWhile (q := isPyWs) hnm
    rw [List.all_eq_true] at this ⊢
    intro c hc
    have h2 := this c hc
    simpa using h2
  refine ⟨?_, ?_, ?_⟩
  · have hm := epTitleMatchAt_double d1 d2 d3 name h1e h1d h2e h2d h3e h3d
    have hs := epTitleSearch_head (by simp [h1e]) hm
    have hsp : splitAtFirst '/' (d2 ++ '/' :: d3) = some (d2, d3) :=
      splitAtFirst_append (all_ne_of_all_digit (by decide) h2d) _
    simp only [parse_episode_title, hs, hsp, hg3 name hn, pyStrip_dropWhile_ws]
  · have hm := epTitleMatchAt_single d1 d2 name h1e h1d h2e h2d
    have hs := epTitleSearch_head (by simp [h1e]) hm
    have hsp : splitAtFirst '/' d2 = none :=
      splitAtFirst_none (all_ne_of_all_digit (by decide) h2d)
    simp only [parse_episode_title, hs, hsp, hg3 name hn, pyStrip_dropWhile_ws]
  · have hdot : (d1 ++ 'x' :: (d2 ++ '-' :: d3)).all (fun c => !(c = '.')) = true := by
      simp only [List.all_append, List.all_cons, Bool.and_eq_true]
      exact ⟨all_ne_of_all_digit (by decide) h1d,
        by decide, all_ne_of_all_digit (by decide) h2d, by decide,
        all_ne_of_all_digit (by decide) h3d⟩
    have hrep := replaceAll_strip_txt _ hdot
    have e1 : (d1 ++ 'x' :: (d2 ++ '-' :: d3)).takeWhile isDigitC = d1 :=
      takeWhile_append_stop h1d (by decide) _
    have e2 : (d1 ++ 'x' :: (d2 ++ '-' :: d3)).drop d1.length = 'x' :: (d2 ++ '-' :: d3) :=
      List.drop_left d1 _
    have e3 : (d2 ++ '-' :: d3).takeWhile isDigitC = d2 :=
      takeWhile_append_stop h2d (by decide) _
    have e4 : (d2 ++ '-' :: d3).drop d2.length = '-' :: d3 := List.drop_left d2 _
    have e5 : d3.takeWhile isDigitC = d3 := takeWhile_eq_self_of_all h3d
    have e6 : d3.drop d3.length = [] := List.drop_length d3
    simp only [parse_episode_filename, hrep, e1, e2, e3, e4, e5, e6]
    simp [h1e, h2e, h3e]

/-- Witness for C4's amended theorem at the claim's own example: the page
title `"9x24/25 A.A.R.M."` yields code `"09x24-25"` and episode number
24. -/
theorem c4_amended_witness :
    (chars "9" ≠ [] ∧ (chars "9").all isDigitC = true)
    ∧ (chars "24" ≠ [] ∧ (chars "24").all isDigitC = true)
    ∧ (chars "25" ≠ [] ∧ (chars "25").all isDigitC = true)
    ∧ (chars "A.A.R.M.").all (fun c => !(c = '\n')) = true
    ∧ chars "9" ++ 'x' :: (chars "24" ++ '/' :: (chars "25" ++ ' ' :: chars "A.A.R.M."))
        = chars "9x24/25 A.A.R.M."
    ∧ parse_episode_title
        (chars "9" ++ 'x' :: (chars "24" ++ '/' :: (chars "25" ++ ' ' :: chars "A.A.R.M.")))
        = some { season := parseDigits (chars "9"), episode_num := parseDigits (chars "24"),
                 name := pyStrip (chars "A.A.R.M."),
                 episode_code := pad2Nat (parseDigits (chars "9")) ++ 'x'
                   :: (zfill2 (chars "24") ++ '-' :: zfill2 (chars "25")) }
    ∧ parse_episode_title (chars "9x24/25 A.A.R.M.")
        = some ⟨9, 24, chars "A.A.R.M.", chars "09x24-25"⟩ :=
  ⟨⟨by decide, by decide⟩, ⟨by decide, by decide⟩, ⟨by decide, by decide⟩, by decide, by decide,
   (c4_amended_codes (chars "9") (chars "24") (chars "25") (chars "A.A.R.M.")
     (by decide) (by decide) (by decide) (by decide) (by decide) (by decide) (by decide)).1,
   by decide⟩

/-! ### C1: the accumulation discipline -/

theorem splitAtFirst_mem {t : Char} :
    ∀ {l : List Char} {p : List Char × List Char}, splitAtFirst t l = some p → t ∈ l := by
  intro l
  induction l with
  | nil => intro p h; exact absurd h (by simp [splitAtFirst])
  | cons c rest ih =>
    intro p h
    simp only [splitAtFirst] at h
    split at h
    · rename_i hc; exact hc ▸ List.mem_cons_self c rest
    · revert h
      split
      · intro h; exact List.mem_cons_of_mem c (ih (by assumption))
      · intro h; exact absurd h (by simp)

theorem charLineMatch_shape {s : List Char} {p : List Char × List Char}
    (h : charLineMatch s = some p) :
    ∃ c rest, s = c :: rest ∧ isAsciiUpper c = true ∧ ':' ∈ s := by
  cases s with
  | nil => exact absurd h (by simp [charLineMatch])
  | cons c rest =>
    simp only [charLineMatch] at h
    split at h
    · rename_i hu
      refine ⟨c, rest, rfl, hu, ?_⟩
      revert h
      split
      · rename_i q heq
        intro h
        exact List.mem_cons_of_mem c (splitAtFirst_mem heq)
      · intro h; exact absurd h (by simp)
    · exact absurd h (by simp)

theorem charLineMatch_not_scene {s : List Char} {p : List Char × List Char}
    (h : charLineMatch s = some p) : isSceneMarker s = false := by
  obtain ⟨c, rest, rfl, hu, hc⟩ := charLineMatch_shape h
  simp only [isSceneMarker, Bool.or_eq_false_iff, Bool.and_eq_false_iff]
  constructor
  · simp only [List.head?_cons, Option.some.injEq, decide_eq_false_iff_not]
    intro he
    rw [he] at hu
    exact absurd hu (by decide)
  · right
    simp [List.contains, List.elem_eq_mem, hc]

theorem charLineMatch_none_of_head_lsq {s : List Char}
    (h : s.head? = some '[') : charLineMatch s = none := by
  cases s with
  | nil => rfl
  | cons c rest =>
    simp only [List.head?_cons, Option.some.injEq] at h
    subst h
    simp only [charLineMatch]
    rw [if_neg (by decide : ¬ isAsciiUpper '[' = true)]

theorem charLineMatch_none_of_no_colon {s : List Char}
    (h : s.contains ':' = false) : charLineMatch s = none := by
  cases hm : charLineMatch s with
  | none => rfl
  | some p =>
    obtain ⟨c, rest, rfl, _, hc⟩ := charLineMatch_shape hm
    rw [show (c :: rest).contains ':' = List.elem ':' (c :: rest) from rfl, List.elem_eq_mem] at h
    simp [hc] at h

theorem collect_eq : ∀ ls : List (List Char), collectCont ls = specCollectA ls := by
  intro ls
  induction ls with
  | nil => rfl
  | cons l rest ih =>
    simp only [collectCont, specCollectA, classify]
    by_cases hb : (pyStrip l).isEmpty
    · simp [hb]
    · simp only [hb, if_false, Bool.false_eq_true]
      by_cases hsm : isSceneMarker (pyStrip l)
      · simp only [hsm, if_true]
        by_cases hlsq : (pyStrip l).head? = some '['
        · rw [charLineMatch_none_of_head_lsq hlsq]
          simp [hlsq]
        · have hcm : charLineMatch (pyStrip l) = none := by
            apply charLineMatch_none_of_no_colon
            simp only [isSceneMarker, Bool.or_eq_true, Bool.and_eq_true] at hsm
            rcases hsm with hsm | hsm
            · exact absurd (by simpa using hsm) hlsq
            · simpa using hsm.2
          rw [hcm]
          simp [hlsq, ih]
      · simp only [hsm, if_false, Bool.false_eq_true]
        cases hcm : charLineMatch (pyStrip l) with
        | some q =>
          simp [hcm]
        | none =>
          have hlsq : ¬ (pyStrip l).head? = some '[' := by
            intro he
            simp [isSceneMarker, he] at hsm
          simp [hcm, hlsq, ih]

theorem specParseAF_zero (keep : Bool) (info : EpInfo) (scene : List Char) (n : Nat)
    (ls : List (List Char)) : specParseAF keep info 0 scene n ls = [] := rfl

theorem specParseAF_nil (keep : Bool) (info : EpInfo) (fuel : Nat) (scene : List Char)
    (n : Nat) : specParseAF keep info (fuel + 1) scene n [] = [] := rfl

theorem specParseAF_cons (keep : Bool) (info : EpInfo) (fuel : Nat) (scene : List Char)
    (n : Nat) (l : List Char) (rest : List (List Char)) :
    specParseAF keep info (fuel + 1) scene n (l :: rest) =
      match classify l with
      | LineClass.blank => specParseAF keep info fuel scene n rest
      | LineClass.scene t => specParseAF keep info fuel t n rest
      | LineClass.cont _ => specParseAF keep info fuel scene n rest
      | LineClass.charline nm r =>
        let ds := pyStrip r
        let col := if ds.isEmpty then specCollectA rest else ([ds], rest)
        let raw := pyStrip (joinWords col.1)
        let t := if keep then raw else pyStrip (removeParens raw)
        if emitOK t then
          mkDialogue info (normalize_character_name nm) t scene (n + 1)
            :: specParseAF keep info fuel scene (n + 1) col.2
        else specParseAF keep info fuel scene n col.2 := rfl

theorem parseLoopF_eq_specParseAF (keep : Bool) (info : EpInfo) :
    ∀ (fuel : Nat) (scene : List Char) (n : Nat) (ls : List (List Char)),
      parseLoopF keep info fuel scene n ls = specParseAF keep info fuel scene n ls := by
  intro fuel
  induction fuel with
  | zero => intro scene n ls; rfl
  | succ fuel ih =>
    intro scene n ls
    cases ls with
    | nil => rfl
    | cons l rest =>
      rw [parseLoopF_cons, specParseAF_cons]
      simp only [classify]
      by_cases hb : (pyStrip l).isEmpty
      · simp only [hb, if_true]
        exact ih scene n rest
      · simp only [hb, if_false, Bool.false_eq_true]
        by_cases hsm : isSceneMarker (pyStrip l)
        · simp only [hsm, if_true]
          exact ih (stripBrk (pyStrip l)) n rest
        · simp only [hsm, if_false, Bool.false_eq_true]
          cases hcm : charLineMatch (pyStrip l) with
          | none => exact ih scene n rest
          | some q =>
            obtain ⟨nm, r⟩ := q
            simp only [flushInfo, collect_eq]
            split
            · rw [ih, ih]
            · rw [ih, ih]

/-- C1 amended: from every assembler state, the source's assembler
behaves exactly like the classifier-driven machine `specParseAF`: a
CharacterLine with inline dialogue (non-empty remainder) flushes
`parts = [remainder]` immediately, consuming no continuation line; only a
CharacterLine with an empty remainder accumulates, appending every
subsequent Continuation — and also any all-caps heuristic SceneMarker —
until a Blank line (consumed), a new CharacterLine, or a `[`-marker
(both pushed back and re-classified on the next step). -/
theorem c1_amended_assembler (keep : Bool) (info : EpInfo) (scene : List Char)
    (n : Nat) (lines : List (List Char)) :
    parseFrom keep info scene n lines = specParseAFrom keep info scene n lines :=
  parseLoopF_eq_specParseAF keep info lines.length scene n lines

/-- Counterexample to C1 as stated: (i) after the inline start
`"Jim: Hello"` the source does not append the following Continuation
`"world"` (the claimed machine yields `"Hello world"`); (ii) while
accumulating after `"Pam:"`, the all-caps SceneMarker
`"CUT TO KITCHEN"` does not terminate accumulation but is appended into
the utterance (the claimed machine stops there). -/
theorem c1_counterexample :
    ¬ claimC1
    ∧ (parseLines true info0 [chars "Jim: Hello", chars "world"]).map (fun d => d.text)
        = [chars "Hello"]
    ∧ (specParseCFrom true info0 (chars "Opening") 0 [chars "Jim: Hello", chars "world"]).map
        (fun d => d.text) = [chars "Hello world"]
    ∧ (parseLines true info0
        [chars "Pam:", chars "hi", chars "CUT TO KITCHEN", chars "there"]).map (fun d => d.text)
        = [chars "hi CUT TO KITCHEN there"]
    ∧ (specParseCFrom true info0 (chars "Opening") 0
        [chars "Pam:", chars "hi", chars "CUT TO KITCHEN", chars "there"]).map (fun d => d.text)
        = [chars "hi"] := by
  refine ⟨fun h => ?_, by decide, by decide, by decide, by decide⟩
  exact absurd
    (h true info0 (chars "Opening") 0 [chars "Jim: Hello", chars "world"]) (by decide)

/-! ### C8: no warnings are ever recorded -/

/-- Counterexample to C8 as stated: the unit consisting of the single
unclassifiable line `"@@ not classifiable @@"` is processed with an empty
warnings component — no ParseWarning is recorded anywhere. -/
theorem c8_counterexample :
    ¬ claimC8
    ∧ (parse_transcript_result true info0 [chars "@@ not classifiable @@"]).2 = [] := by
  refine ⟨fun h => ?_, rfl⟩
  exact (h true info0 [chars "@@ not classifiable @@"] (chars "@@ not classifiable @@")
    (by simp) (by decide) (by decide) (by decide)) rfl

/-- C8 amended: the transform returns only the Dialogue records — the
warnings component of its result is empty for every input — and a line
that cannot be classified usefully is silently dropped, processing
continuing on the remaining lines with nothing recorded. -/
theorem c8_amended_silent_drop (keep : Bool) (info : EpInfo) (bad : List Char)
    (rest : List (List Char))
    (hne : (pyStrip bad).isEmpty = false)
    (hscene : isSceneMarker (pyStrip bad) = false)
    (hchar : charLineMatch (pyStrip bad) = none) :
    (∀ lines : List (List Char), (parse_transcript_result keep info lines).2 = [])
    ∧ parse_transcript_result keep info (bad :: rest)
        = parse_transcript_result keep info rest := by
  refine ⟨fun _ => rfl, ?_⟩
  have hdrop : parseFrom keep info (chars "Opening") 0 (bad :: rest)
      = parseFrom keep info (chars "Opening") 0 rest := by
    show parseLoopF keep info (rest.length + 1) (chars "Opening") 0 (bad :: rest)
        = parseLoopF keep info rest.length (chars "Opening") 0 rest
    rw [parseLoopF_cons, hne, hscene, hchar]
    rfl
  simp [parse_transcript_result, parseLines, hdrop]

/-- Witness for C8's amended theorem at the unclassifiable line
`"@@ not classifiable @@"` followed by an ordinary character line. -/
theorem c8_amended_witness :
    (pyStrip (chars "@@ not classifiable @@")).isEmpty = false
    ∧ isSceneMarker (pyStrip (chars "@@ not classifiable @@")) = false
    ∧ charLineMatch (pyStrip (chars "@@ not classifiable @@")) = none
    ∧ ((∀ lines : List (List Char), (parse_transcript_result false info0 lines).2 = [])
       ∧ parse_transcript_result false info0
           (chars "@@ not classifiable @@" :: [chars "Pam: Hi"])
         = parse_transcript_result false info0 [chars "Pam: Hi"]) :=
  ⟨by decide, by decide, by decide,
   c8_amended_silent_drop false info0 (chars "@@ not classifiable @@") [chars "Pam: Hi"]
     (by decide) (by decide) (by decide)⟩

/-! ### C6: idempotence of the Character Normalizer -/

theorem isAsciiAlpha_titleChar (b : Bool) (c : Char) :
    isAsciiAlpha (titleChar b c) = isAsciiAlpha c := by
  by_cases h : isAsciiAlpha c
  · simp only [titleChar, h, if_true]
    cases b
    · simp [isAsciiAlpha_upC, h]
    · simp [isAsciiAlpha_lowC, h]
  · simp [titleChar, h]

theorem titleChar_titleChar (b : Bool) (c : Char) :
    titleChar b (titleChar b c) = titleChar b c := by
  by_cases h : isAsciiAlpha c
  · have h2 : isAsciiAlpha (titleChar b c) = true := by rw [isAsciiAlpha_titleChar]; exact h
    cases b
    · simp only [titleChar, h, if_true, Bool.false_eq_true, if_false] at h2 ⊢
      rw [if_pos h2, upC_upC]
    · simp only [titleChar, h, if_true] at h2 ⊢
      rw [if_pos h2, lowC_lowC]
  · simp [titleChar, h]

theorem isPyWs_titleChar (b : Bool) (c : Char) : isPyWs (titleChar b c) = isPyWs c := by
  by_cases h : isAsciiAlpha c
  · have h2 : isAsciiAlpha (titleChar b c) = true := by rw [isAsciiAlpha_titleChar]; exact h
    rw [not_isPyWs_of_alpha h2, not_isPyWs_of_alpha h]
  · simp [titleChar, h]

theorem titleAux_titleAux : ∀ (l : List Char) (b : Bool),
    titleAux b (titleAux b l) = titleAux b l := by
  intro l
  induction l with
  | nil => intro b; rfl
  | cons c rest ih =>
    intro b
    simp only [titleAux, titleChar_titleChar, isAsciiAlpha_titleChar]
    rw [ih (isAsciiAlpha c)]

theorem pyTitle_pyTitle (l : List Char) : pyTitle (pyTitle l) = pyTitle l :=
  titleAux_titleAux l false

theorem titleAux_length : ∀ (l : List Char) (b : Bool), (titleAux b l).length = l.length := by
  intro l
  induction l with
  | nil => intro b; rfl
  | cons c rest ih => intro b; simp [titleAux, ih]

theorem titleAux_all_nonws : ∀ (l : List Char) (b : Bool),
    l.all (fun c => !isPyWs c) = true → (titleAux b l).all (fun c => !isPyWs c) = true := by
  intro l
  induction l with
  | nil => intro b _; rfl
  | cons c rest ih =>
    intro b h
    simp only [titleAux, List.all_cons, Bool.and_eq_true] at h ⊢
    refine ⟨?_, ih _ h.2⟩
    simpa [isPyWs_titleChar] using h.1

theorem titleAux_append (b : Bool) : ∀ (xs ys : List Char),
    titleAux b (xs ++ ys) = titleAux b xs ++ titleAux (xs.foldl (fun _ c => isAsciiAlpha c) b) ys := by
  intro xs
  induction xs generalizing b with
  | nil => intro ys; rfl
  | cons c rest ih => intro ys; simp [titleAux, List.foldl_cons, ih (isAsciiAlpha c)]

theorem pySplitAux_word (w : List Char) (hw : w.all (fun c => !isPyWs c) = true) :
    ∀ (acc r : List Char), pySplitAux acc (w ++ r) = pySplitAux (w.reverse ++ acc) r := by
  induction w with
  | nil => intro acc r; simp
  | cons c rest ih =>
    intro acc r
    simp only [List.all_cons, Bool.and_eq_true, Bool.not_eq_true'] at hw
    simp only [List.cons_append, pySplitAux, hw.1, Bool.false_eq_true, if_false]
    rw [show (rest.append r : List Char) = rest ++ r from rfl, ih hw.2 (c :: acc) r]
    simp

theorem pySplitAux_space (acc r : List Char) (hacc : acc ≠ []) :
    pySplitAux acc (' ' :: r) = acc.reverse :: pySplitAux [] r := by
  simp only [pySplitAux]
  rw [if_pos (by decide : isPyWs ' ' = true)]
  simp [List.isEmpty_eq_true, hacc]

theorem pySplitAux_end (acc : List Char) (hacc : acc ≠ []) :
    pySplitAux acc [] = [acc.reverse] := by
  simp [pySplitAux, List.isEmpty_eq_true, hacc]

theorem pySplitWs_joinWords : ∀ ws : List (List Char),
    (∀ w ∈ ws, w ≠ [] ∧ w.all (fun c => !isPyWs c) = true) →
    pySplitWs (joinWords ws) = ws := by
  intro ws
  induction ws with
  | nil => intro _; rfl
  | cons w ws ih =>
    intro h
    obtain ⟨hw, hws⟩ := h w (List.mem_cons_self w ws)
    cases ws with
    | nil =>
      show pySplitAux [] (joinWords [w]) = [w]
      rw [show joinWords [w] = w from rfl, show (w : List Char) = w ++ [] by simp,
        pySplitAux_word w hws]
      simp only [List.append_nil]
      rw [pySplitAux_end _ (by simpa using hw)]
      simp
    | cons w2 ws2 =>
      show pySplitAux [] (joinWords (w :: w2 :: ws2)) = w :: w2 :: ws2
      rw [show joinWords (w :: w2 :: ws2) = w ++ ' ' :: joinWords (w2 :: ws2) from rfl]
      rw [pySplitAux_word w hws]
      simp only [List.append_nil]
      rw [pySplitAux_space _ _ (by simpa using hw)]
      rw [List.reverse_reverse]
      exact congrArg _ (ih (fun x hx => h x (List.mem_cons_of_mem w hx)))

theorem pySplitWs_good : ∀ (l : List Char) (acc : List Char),
    acc.all (fun c => !isPyWs c) = true →
    ∀ w ∈ pySplitAux acc l, w ≠ [] ∧ w.all (fun c => !isPyWs c) = true := by
  intro l
  induction l with
  | nil =>
    intro acc hacc w hw
    simp only [pySplitAux] at hw
    split at hw
    · simp at hw
    · rename_i hne
      simp only [List.mem_singleton] at hw
      subst hw
      constructor
      · simpa [List.isEmpty_eq_true] using hne
      · simpa using hacc
  | cons c rest ih =>
    intro acc hacc w hw
    simp only [pySplitAux] at hw
    split at hw
    · rename_i hws
      split at hw
      · exact ih [] rfl w hw
      · rename_i hne
        rcases List.mem_cons.mp hw with h | h
        · subst h
          refine ⟨by simpa [List.isEmpty_eq_true] using hne, by simpa using hacc⟩
        · exact ih [] rfl w h
    · rename_i hws
      exact ih (c :: acc) (by simp [hacc, hws]) w hw

theorem titleAux_joinWords : ∀ ws : List (List Char),
    titleAux false (joinWords ws) = joinWords (ws.map (fun w => titleAux false w)) := by
  intro ws
  induction ws with
  | nil => rfl
  | cons w ws ih =>
    cases ws with
    | nil => rfl
    | cons w2 ws2 =>
      rw [show joinWords (w :: w2 :: ws2) = w ++ ' ' :: joinWords (w2 :: ws2) from rfl]
      rw [titleAux_append]
      rw [show titleAux (List.foldl (fun _ c => isAsciiAlpha c) false w) (' ' :: joinWords (w2 :: ws2))
          = ' ' :: titleAux false (joinWords (w2 :: ws2)) by
        simp [titleAux, titleChar, isAsciiAlpha, isAsciiUpper, isAsciiLower]]
      rw [ih]
      rfl

theorem squish_title_squish (x : List Char) :
    squish (pyTitle (squish x)) = pyTitle (squish x) := by
  have hgood := pySplitWs_good x [] rfl
  have hmap : ∀ w ∈ (pySplitWs x).map (fun w => titleAux false w),
      w ≠ [] ∧ w.all (fun c => !isPyWs c) = true := by
    intro w hw
    rw [List.mem_map] at hw
    obtain ⟨w0, hw0, rfl⟩ := hw
    obtain ⟨hne, hnws⟩ := hgood w0 hw0
    refine ⟨?_, titleAux_all_nonws w0 false hnws⟩
    intro hcon
    have := titleAux_length w0 false
    rw [hcon] at this
    exact hne (List.eq_nil_of_length_eq_zero this.symm)
  show squish (pyTitle (joinWords (pySplitWs x))) = pyTitle (joinWords (pySplitWs x))
  rw [show pyTitle (joinWords (pySplitWs x))
      = joinWords ((pySplitWs x).map (fun w => titleAux false w)) from titleAux_joinWords _]
  show joinWords (pySplitWs (joinWords _)) = _
  rw [pySplitWs_joinWords _ hmap]

theorem lookupMap_mem : ∀ {m : List (List Char × List Char)} {k v : List Char},
    lookupMap m k = some v → (k, v) ∈ m := by
  intro m
  induction m with
  | nil => intro k v h; exact absurd h (by simp [lookupMap])
  | cons p rest ih =>
    intro k v h
    obtain ⟨k', v'⟩ := p
    simp only [lookupMap] at h
    split at h
    · rename_i he
      simp only [Option.some.injEq] at h
      subst he; subst h
      exact List.mem_cons_self _ _
    · exact List.mem_cons_of_mem _ (ih h)

/-- C6: the character normalizer is idempotent — for every input string,
`normalize(normalize(x)) = normalize(x)`: the whitespace-collapsed,
title-cased form is a fixed point of both steps, and every canonical
value of the alias table is itself a fixed point of the whole function
(checked by evaluation over the configured table, whose only
value-that-is-also-a-key, "Holly", maps to itself). -/
theorem c6_normalize_idempotent (x : List Char) :
    normalize_character_name (normalize_character_name x) = normalize_character_name x := by
  have hstep : pyTitle (squish (pyTitle (squish x))) = pyTitle (squish x) := by
    rw [squish_title_squish, pyTitle_pyTitle]
  cases h : lookupMap character_mappings (pyTitle (squish x)) with
  | none =>
    have h1 : normalize_character_name x = pyTitle (squish x) := by
      simp [normalize_character_name, h]
    rw [h1]
    simp [normalize_character_name, hstep, h]
  | some v =>
    have h1 : normalize_character_name x = v := by
      simp [normalize_character_name, h]
    rw [h1]
    have hv := lookupMap_mem h
    have hall : character_mappings.all
        (fun p => normalize_character_name p.2 == p.2) = true := by decide
    rw [List.all_eq_true] at hall
    have h2 := hall _ hv
    simpa using h2

end OfficeSim

